import Mathlib

/-!
Shallow embedding of the value-pick detection engine of `src/main.py`
(the `naive_edge` estimator/selector and the per-sport ranking step of
`tips`).  Prices and probabilities are modelled as exact rationals; the
Python dictionaries are modelled as lookup functions built by the same
left folds the source performs.  Outcome-name sets are modelled as
deduplicated lists (Python set iteration order is unspecified; the code
under scrutiny iterates whatever order the set yields, and the embedding
fixes one canonical order).
-/

namespace ValueOdds

/-- One quoted outcome of a bookmaker's h2h market: `{'name': ..., 'price': ...}`. -/
structure Quote where
  name : String
  price : ℚ
deriving DecidableEq

/-- One bookmaker's quote set for a match: `bookmaker['markets'][0]['outcomes']`. -/
structure Bookmaker where
  outcomes : List Quote
deriving DecidableEq

/-- A match (`game`): its list of bookmaker quote sets. -/
structure Game where
  bookmakers : List Bookmaker
deriving DecidableEq

/-- `outcome_names` (main.py lines 54-62): the distinct outcome names across all
bookmaker quote sets, as a list. -/
def outcomeNames (g : Game) : List String :=
  (g.bookmakers.flatMap (fun bm => bm.outcomes.map (fun q => q.name))).dedup

/-- `outcomes_dict` (lines 68-70): name-to-price lookup for one bookmaker,
built left to right so that a later duplicate entry overwrites an earlier one. -/
def outcomesDict (bm : Bookmaker) (n : String) : Option ℚ :=
  bm.outcomes.foldl (fun acc q => if q.name = n then some q.price else acc) none

/-- `implied_probs[name]` (lines 72-77): `1/price` for a quoted outcome, else `0`. -/
def impliedProb (bm : Bookmaker) (n : String) : ℚ :=
  match outcomesDict bm n with
  | some p => 1 / p
  | none => 0

/-- `total_implied` (line 79): the sum of the implied-probability vector over the
outcome universe. -/
def totalImplied (names : List String) (bm : Bookmaker) : ℚ :=
  (names.map (fun n => impliedProb bm n)).sum

/-- `vig_free[name]` (lines 83-85): the de-vigged probability, the implied
probability divided by the bookmaker's total implied mass. -/
def vigFree (names : List String) (bm : Bookmaker) (n : String) : ℚ :=
  impliedProb bm n / totalImplied names bm

/-- `bookmaker_data` (lines 67-95): the usable bookmakers, i.e. those whose
implied-probability sum is not zero (line 80's `continue` skips the rest). -/
def bookmakerData (names : List String) (g : Game) : List Bookmaker :=
  g.bookmakers.filter (fun bm => totalImplied names bm ≠ 0)

/-- One update of `best_odds_per_outcome[name]` by one bookmaker (lines 87-90):
`if name not in best_odds_per_outcome or price > best_odds_per_outcome[name]`. -/
def bestStep (n : String) (acc : Option ℚ) (bm : Bookmaker) : Option ℚ :=
  match outcomesDict bm n with
  | some price =>
    match acc with
    | none => some price
    | some b => if b < price then some price else some b
  | none => acc

/-- `best_odds_per_outcome[name]` (lines 87-90): the maximum price any usable
bookmaker quotes for the outcome, folded in bookmaker order (ties keep the
earlier price, which is the same value). -/
def bestOdds (names : List String) (g : Game) (n : String) : Option ℚ :=
  (bookmakerData names g).foldl (bestStep n) none

/-- `probs_for_consensus` before the fallback (lines 102-111): de-vigged
probabilities of usable bookmakers, skipping a bookmaker that quotes the outcome
at the best price, and keeping only strictly positive de-vigged probabilities. -/
def primaryCandidates (names : List String) (g : Game) (n : String) : List ℚ :=
  (bookmakerData names g).filterMap (fun bm =>
    match outcomesDict bm n with
    | some price =>
      if bestOdds names g n = some price then none
      else if 0 < vigFree names bm n then some (vigFree names bm n) else none
    | none =>
      if 0 < vigFree names bm n then some (vigFree names bm n) else none)

/-- `vig_free_probs_all` (line 114): the fallback list, de-vigged probabilities of
all usable bookmakers that are strictly positive for the outcome. -/
def fallbackCandidates (names : List String) (g : Game) (n : String) : List ℚ :=
  (bookmakerData names g).filterMap (fun bm =>
    if 0 < vigFree names bm n then some (vigFree names bm n) else none)

/-- `probs_for_consensus` after the fallback step (lines 113-117). -/
def candidateProbs (names : List String) (g : Game) (n : String) : List ℚ :=
  if primaryCandidates names g n = [] then fallbackCandidates names g n
  else primaryCandidates names g n

/-- The median computation of lines 119-129: sort ascending, take the single
element, the average of the two middle elements, or the middle element. -/
def median (l : List ℚ) : ℚ :=
  let sorted_probs := l.insertionSort (fun a b => a ≤ b)
  let n := sorted_probs.length
  if n = 1 then sorted_probs.getD 0 0
  else if n % 2 = 0 then (sorted_probs.getD (n / 2 - 1) 0 + sorted_probs.getD (n / 2) 0) / 2
  else sorted_probs.getD (n / 2) 0

/-- `consensus_probs[name]` (lines 100-129): `none` exactly when even the
fallback candidate list is empty (line 116's `return None`). -/
def consensusProb (names : List String) (g : Game) (n : String) : Option ℚ :=
  if candidateProbs names g n = [] then none
  else some (median (candidateProbs names g n))

/-- The whole consensus loop (lines 100-129): succeeds only if every outcome
yields a consensus probability. -/
def consensusLoop (names : List String) (g : Game) : List String → Option (List (String × ℚ))
  | [] => some []
  | n :: rest =>
    match consensusProb names g n, consensusLoop names g rest with
    | some c, some l => some ((n, c) :: l)
    | _, _ => none

/-- `consensus_probs` as a whole: an entry per universe outcome, or failure. -/
def consensusPairs (names : List String) (g : Game) : Option (List (String × ℚ)) :=
  consensusLoop names g names

/-- `total_consensus` (line 131). -/
def totalConsensus (names : List String) (g : Game) : ℚ :=
  (names.map (fun n => (consensusProb names g n).getD 0)).sum

/-- `fair_probs[name]` (lines 135-137). -/
def fairProb (names : List String) (g : Game) (n : String) : ℚ :=
  (consensusProb names g n).getD 0 / totalConsensus names g

/-- The `fair_probs` dictionary (lines 135-137): one entry per universe outcome. -/
def fairProbs (names : List String) (g : Game) : List (String × ℚ) :=
  names.map (fun n => (n, fairProb names g n))

/-- The `best_roi` tracked by the selection loop: `-1` while `best_pick` is still
`None` (lines 139-141), else the stored best expected ROI. -/
def accRoi : Option (String × ℚ × ℚ) → ℚ
  | none => -1
  | some (_, r, _) => r

/-- One iteration of the selection loop (lines 143-155), accumulator
`(best_pick, best_roi, best_odds)`; `none` models `best_pick is None`
with `best_roi = -1`. -/
def selectStep (names : List String) (g : Game) (acc : Option (String × ℚ × ℚ))
    (n : String) : Option (String × ℚ × ℚ) :=
  match bestOdds names g n with
  | none => acc
  | some best_price =>
    if accRoi acc < fairProb names g n * best_price - 1
    then some (n, fairProb names g n * best_price - 1, best_price) else acc

/-- The selection loop of lines 139-155 over an iteration list `l`. -/
def selectLoop (names : List String) (g : Game) (l : List String) :
    Option (String × ℚ × ℚ) :=
  l.foldl (selectStep names g) none

/-- `naive_edge` (lines 49-164): returns `(best_pick, best_odds, best_roi)` when
the best expected ROI reaches the 0.05 threshold, `none` otherwise or on any of
the failure branches. -/
def naiveEdge (g : Game) : Option (String × ℚ × ℚ) :=
  if g.bookmakers = [] then none
  else
    let names := outcomeNames g
    if names.length < 2 then none
    else if bookmakerData names g = [] then none
    else
      match consensusPairs names g with
      | none => none
      | some _ =>
        if totalConsensus names g = 0 then none
        else
          match selectLoop names g names with
          | none => none
          | some (best_pick, best_roi, best_odds) =>
            if 5 / 100 ≤ best_roi then some (best_pick, best_odds, best_roi)
            else none

/-- The per-sport pick collection of `tips` (lines 210-218): for each game with a
qualifying edge, the stored tuple `(edge, game, pick, odds)`. -/
def valuePicks (games : List Game) : List (ℚ × Game × String × ℚ) :=
  games.filterMap (fun game =>
    (naiveEdge game).map (fun r => (r.2.2, game, r.1, r.2.1)))

/-- `MAX_PICKS_PER_SPORT` (line 201). -/
def MAX_PICKS_PER_SPORT : ℕ := 5

/-- The descending-by-edge order used by `value_picks.sort(key=..., reverse=True)`
(line 224). -/
def pickGE (a b : ℚ × Game × String × ℚ) : Prop := b.1 ≤ a.1

instance : DecidableRel pickGE := fun a b => inferInstanceAs (Decidable (b.1 ≤ a.1))

instance : IsTotal (ℚ × Game × String × ℚ) pickGE := ⟨fun a b => le_total b.1 a.1⟩

instance : IsTrans (ℚ × Game × String × ℚ) pickGE := ⟨fun _ _ _ h1 h2 => le_trans h2 h1⟩

/-- `top_picks` (lines 224-225): the stable descending sort by edge, truncated to
the first `MAX_PICKS_PER_SPORT` entries. -/
def topPicks (games : List Game) : List (ℚ × Game × String × ℚ) :=
  ((valuePicks games).insertionSort pickGE).take MAX_PICKS_PER_SPORT

/-- The conditions under which `naive_edge` reaches the fair-probability and
selection phase (estimation succeeds): bookmakers present, at least two distinct
outcomes, a usable bookmaker, a consensus probability for every outcome, and a
nonzero total consensus mass. -/
def estimationOk (g : Game) : Prop :=
  g.bookmakers ≠ [] ∧ 2 ≤ (outcomeNames g).length ∧
    bookmakerData (outcomeNames g) g ≠ [] ∧
    (consensusPairs (outcomeNames g) g).isSome ∧
    totalConsensus (outcomeNames g) g ≠ 0

instance (g : Game) : Decidable (estimationOk g) := by
  unfold estimationOk; infer_instance

/-- All quoted prices of a match are strictly positive (the spec's data-model
invariant `price > 1.0` implies this). -/
def pricesPos (g : Game) : Prop :=
  ∀ bm ∈ g.bookmakers, ∀ q ∈ bm.outcomes, 0 < q.price

instance (g : Game) : Decidable (pricesPos g) := by
  unfold pricesPos; infer_instance

/-- The expected ROIs the selection loop computes (lines 143-150): for each
outcome of the iteration list that has a best price, `fair_prob * best_price - 1`. -/
def rois (names : List String) (g : Game) (l : List String) : List ℚ :=
  l.filterMap (fun n =>
    (bestOdds names g n).map (fun best_price => fairProb names g n * best_price - 1))

/-- Claim C1 reading of the primary consensus candidate list: the de-vigged
probability of every usable bookmaker, excluding only a bookmaker whose raw
quoted price for the outcome equals the best price (no positivity filter). -/
def primaryCandidatesClaimed (names : List String) (g : Game) (n : String) : List ℚ :=
  (bookmakerData names g).filterMap (fun bm =>
    match outcomesDict bm n with
    | some price =>
      if bestOdds names g n = some price then none else some (vigFree names bm n)
    | none => some (vigFree names bm n))

/-- Claim C1 reading of the full candidate list: the primary list if nonempty,
else the fallback list. -/
def candidateProbsClaimed (names : List String) (g : Game) (n : String) : List ℚ :=
  if primaryCandidatesClaimed names g n = [] then fallbackCandidates names g n
  else primaryCandidatesClaimed names g n

/-- A bookmaker quotes the outcome and its raw price equals the best price for
that outcome. -/
def quotesBest (names : List String) (g : Game) (bm : Bookmaker) (n : String) : Prop :=
  outcomesDict bm n ≠ none ∧ outcomesDict bm n = bestOdds names g n

instance (names : List String) (g : Game) (bm : Bookmaker) (n : String) :
    Decidable (quotesBest names g bm n) := by
  unfold quotesBest; infer_instance

/-- The amended reading of the primary consensus candidate list: the de-vigged
probability of every usable bookmaker whose de-vigged probability for the
outcome is strictly positive, excluding any bookmaker whose raw quoted price for
the outcome equals the best price. -/
def primaryCandidatesAmended (names : List String) (g : Game) (n : String) : List ℚ :=
  (bookmakerData names g).filterMap (fun bm =>
    if 0 < vigFree names bm n ∧ ¬ quotesBest names g bm n
    then some (vigFree names bm n) else none)

/-- Scenario A of the spec, bookmaker X: quotes A=2.00, B=1.80. -/
def bmX : Bookmaker := ⟨[⟨"A", 2⟩, ⟨"B", 9 / 5⟩]⟩

/-- Scenario A of the spec, bookmaker Y: quotes A=1.90, B=2.00. -/
def bmY : Bookmaker := ⟨[⟨"A", 19 / 10⟩, ⟨"B", 2⟩]⟩

/-- Scenario A of the spec: the no-pick match. -/
def gA : Game := ⟨[bmX, bmY]⟩

/-- Scenario B of the spec, bookmaker X: quotes A=3.00, B=1.40. -/
def bmP : Bookmaker := ⟨[⟨"A", 3⟩, ⟨"B", 7 / 5⟩]⟩

/-- Scenario B of the spec, bookmaker Y: quotes A=1.50, B=2.60. -/
def bmQ : Bookmaker := ⟨[⟨"A", 3 / 2⟩, ⟨"B", 13 / 5⟩]⟩

/-- Scenario B of the spec: the pick-case match. -/
def gB : Game := ⟨[bmP, bmQ]⟩

/-- A match exhibiting the divergence of claim C1: the second bookmaker is
usable but does not quote outcome B, and the only bookmaker quoting B does so at
the best price for B. -/
def gC1 : Game := ⟨[⟨[⟨"A", 2⟩, ⟨"B", 2⟩]⟩, ⟨[⟨"A", 2⟩]⟩]⟩

/-- A match on which even the fallback candidate list for outcome B is empty:
the only bookmaker quoting B quotes it at a negative price (hence at the best
price for B, and with a negative de-vigged probability). -/
def gC1w : Game := ⟨[⟨[⟨"A", 1 / 4⟩, ⟨"B", -2⟩]⟩, ⟨[⟨"A", 2⟩]⟩]⟩

/-- The degenerate match of the spec: one bookmaker quote set covering a single
outcome. -/
def gDeg : Game := ⟨[⟨[⟨"A", 2⟩]⟩]⟩

/-! Helper lemmas. -/

lemma sum_map_div {α : Type} (l : List α) (f : α → ℚ) (c : ℚ) :
    (l.map (fun x => f x / c)).sum = (l.map f).sum / c := by
  induction l with
  | nil => simp
  | cons a l ih => simp only [List.map_cons, List.sum_cons, ih, div_add_div_same]

lemma mem_primaryCandidates_pos {names : List String} {g : Game} {n : String} {x : ℚ}
    (hx : x ∈ primaryCandidates names g n) : 0 < x := by
  obtain ⟨bm, _, hfx⟩ := List.mem_filterMap.mp hx
  rcases houtd : outcomesDict bm n with _ | price <;> rw [houtd] at hfx <;>
    split_ifs at hfx <;> simp_all

lemma mem_fallbackCandidates_pos {names : List String} {g : Game} {n : String} {x : ℚ}
    (hx : x ∈ fallbackCandidates names g n) : 0 < x := by
  obtain ⟨bm, _, hfx⟩ := List.mem_filterMap.mp hx
  split_ifs at hfx <;> simp_all

lemma mem_candidateProbs_pos {names : List String} {g : Game} {n : String} {x : ℚ}
    (hx : x ∈ candidateProbs names g n) : 0 < x := by
  rw [candidateProbs] at hx
  split_ifs at hx
  · exact mem_fallbackCandidates_pos hx
  · exact mem_primaryCandidates_pos hx

lemma median_pos {l : List ℚ} (hne : l ≠ []) (hpos : ∀ x ∈ l, 0 < x) :
    0 < median l := by
  have hperm := List.perm_insertionSort (fun a b : ℚ => a ≤ b) l
  have hlen := List.length_insertionSort (fun a b : ℚ => a ≤ b) l
  set s := l.insertionSort (fun a b : ℚ => a ≤ b) with hs
  have hpos' : ∀ x ∈ s, 0 < x := fun x hx => hpos x (hperm.mem_iff.mp hx)
  have h0 : 0 < s.length := by rw [hlen]; exact List.length_pos.mpr hne
  rw [median]
  simp only [← hs]
  split_ifs with h1 h2
  · rw [List.getD_eq_getElem s 0 (by omega)]
    exact hpos' _ (List.getElem_mem _)
  · have hge : 2 ≤ s.length := by omega
    have ha := hpos' _ (List.getElem_mem (show s.length / 2 - 1 < s.length by omega))
    have hb := hpos' _ (List.getElem_mem (show s.length / 2 < s.length by omega))
    rw [List.getD_eq_getElem s 0 (by omega : s.length / 2 - 1 < s.length),
      List.getD_eq_getElem s 0 (by omega : s.length / 2 < s.length)]
    positivity
  · rw [List.getD_eq_getElem s 0 (by omega : s.length / 2 < s.length)]
    exact hpos' _ (List.getElem_mem _)

lemma consensusProb_pos {names : List String} {g : Game} {n : String} {c : ℚ}
    (h : consensusProb names g n = some c) : 0 < c := by
  rw [consensusProb] at h
  split_ifs at h with hemp
  have hc : median (candidateProbs names g n) = c := by injection h
  subst hc
  exact median_pos hemp (fun x hx => mem_candidateProbs_pos hx)

lemma consensusLoop_isSome {names : List String} {g : Game} :
    ∀ {l : List String} {L : List (String × ℚ)}, consensusLoop names g l = some L →
      ∀ n ∈ l, (consensusProb names g n).isSome := by
  intro l
  induction l with
  | nil => intro L _ n hn; cases hn
  | cons m l ih =>
    intro L h n hn
    rw [consensusLoop] at h
    rcases hc : consensusProb names g m with _ | c <;> rw [hc] at h
    · cases h
    · rcases hrest : consensusLoop names g l with _ | L' <;> rw [hrest] at h
      · cases h
      · rcases List.mem_cons.mp hn with rfl | hn'
        · rw [hc]; rfl
        · exact ih hrest n hn'

lemma foldl_dict_eq_some {n : String} {p : ℚ} :
    ∀ (l : List Quote) (acc : Option ℚ),
      l.foldl (fun acc q => if q.name = n then some q.price else acc) acc = some p →
      (∃ q ∈ l, q.name = n ∧ q.price = p) ∨ acc = some p := by
  intro l
  induction l with
  | nil => intro acc h; exact Or.inr h
  | cons q l ih =>
    intro acc h
    rw [List.foldl_cons] at h
    rcases ih _ h with ⟨q', hq', hn', hp'⟩ | hacc
    · exact Or.inl ⟨q', List.mem_cons_of_mem _ hq', hn', hp'⟩
    · by_cases hqn : q.name = n
      · rw [if_pos hqn] at hacc
        exact Or.inl ⟨q, List.mem_cons_self q l, hqn, by injection hacc⟩
      · rw [if_neg hqn] at hacc
        exact Or.inr hacc

lemma foldl_dict_isSome {n : String} :
    ∀ (l : List Quote) (acc : Option ℚ),
      (acc.isSome ∨ ∃ q ∈ l, q.name = n) →
      (l.foldl (fun acc q => if q.name = n then some q.price else acc) acc).isSome := by
  intro l
  induction l with
  | nil =>
    intro acc h
    rcases h with h | ⟨q, hq, _⟩
    · exact h
    · cases hq
  | cons q l ih =>
    intro acc h
    rw [List.foldl_cons]
    rcases h with h | ⟨q', hq', hn'⟩
    · refine ih _ (Or.inl ?_)
      by_cases hqn : q.name = n
      · rw [if_pos hqn]; rfl
      · rw [if_neg hqn]; exact h
    · rcases List.mem_cons.mp hq' with rfl | hmem
      · refine ih _ (Or.inl ?_)
        rw [if_pos hn']; rfl
      · exact ih _ (Or.inr ⟨q', hmem, hn'⟩)

lemma outcomesDict_isSome {bm : Bookmaker} {n : String}
    (h : ∃ q ∈ bm.outcomes, q.name = n) : (outcomesDict bm n).isSome :=
  foldl_dict_isSome bm.outcomes none (Or.inr h)

lemma outcomesDict_mem {bm : Bookmaker} {n : String} {p : ℚ}
    (h : outcomesDict bm n = some p) : ∃ q ∈ bm.outcomes, q.name = n ∧ q.price = p := by
  rcases foldl_dict_eq_some bm.outcomes none h with h' | h'
  · exact h'
  · cases h'

lemma mem_outcomeNames {g : Game} {n : String} :
    n ∈ outcomeNames g ↔ ∃ bm ∈ g.bookmakers, ∃ q ∈ bm.outcomes, q.name = n := by
  rw [outcomeNames, List.mem_dedup, List.mem_flatMap]
  constructor
  · rintro ⟨bm, hbm, h⟩
    obtain ⟨q, hq, hqn⟩ := List.mem_map.mp h
    exact ⟨bm, hbm, q, hq, hqn⟩
  · rintro ⟨bm, hbm, q, hq, hqn⟩
    exact ⟨bm, hbm, List.mem_map.mpr ⟨q, hq, hqn⟩⟩

lemma impliedProb_nonneg {bm : Bookmaker} (n : String)
    (h : ∀ q ∈ bm.outcomes, 0 < q.price) : 0 ≤ impliedProb bm n := by
  rw [impliedProb]
  rcases hd : outcomesDict bm n with _ | p
  · exact le_refl 0
  · obtain ⟨q, hq, _, hp⟩ := outcomesDict_mem hd
    have hqp := h q hq
    rw [hp] at hqp
    positivity

lemma impliedProb_pos {bm : Bookmaker} {n : String}
    (h : ∀ q ∈ bm.outcomes, 0 < q.price) (hq : (outcomesDict bm n).isSome) :
    0 < impliedProb bm n := by
  rw [impliedProb]
  rcases hd : outcomesDict bm n with _ | p
  · rw [hd] at hq; cases hq
  · obtain ⟨q, hqm, _, hp⟩ := outcomesDict_mem hd
    have hqp := h q hqm
    rw [hp] at hqp
    positivity

lemma sum_map_pos {α : Type} {f : α → ℚ} {n : α} :
    ∀ {l : List α}, n ∈ l → 0 < f n → (∀ x ∈ l, 0 ≤ f x) → 0 < (l.map f).sum := by
  intro l
  induction l with
  | nil => intro hn; cases hn
  | cons a l ih =>
    intro hn hfn hall
    have hrest : 0 ≤ (l.map f).sum := by
      refine List.sum_nonneg ?_
      intro x hx
      obtain ⟨a', ha', rfl⟩ := List.mem_map.mp hx
      exact hall a' (List.mem_cons_of_mem _ ha')
    rw [List.map_cons, List.sum_cons]
    rcases List.mem_cons.mp hn with rfl | hmem
    · exact add_pos_of_pos_of_nonneg hfn hrest
    · exact add_pos_of_nonneg_of_pos (hall a (List.mem_cons_self a l))
        (ih hmem hfn (fun x hx => hall x (List.mem_cons_of_mem _ hx)))

lemma totalImplied_pos {names : List String} {bm : Bookmaker} {n : String}
    (hn : n ∈ names) (hpos : ∀ q ∈ bm.outcomes, 0 < q.price)
    (hq : (outcomesDict bm n).isSome) : 0 < totalImplied names bm := by
  rw [totalImplied]
  exact sum_map_pos hn (impliedProb_pos hpos hq) (fun m _ => impliedProb_nonneg m hpos)

lemma foldl_best_some_mono {n : String} :
    ∀ (l : List Bookmaker) (acc : Option ℚ), acc.isSome →
      (l.foldl (bestStep n) acc).isSome := by
  intro l
  induction l with
  | nil => intro acc h; exact h
  | cons bm l ih =>
    intro acc h
    rw [List.foldl_cons]
    refine ih _ ?_
    rw [bestStep]
    rcases outcomesDict bm n with _ | price
    · exact h
    · rcases acc with _ | b
      · rfl
      · show (if b < price then some price else some b).isSome = true
        split_ifs <;> rfl

lemma foldl_best_isSome {n : String} :
    ∀ (l : List Bookmaker) (acc : Option ℚ),
      (∃ bm ∈ l, (outcomesDict bm n).isSome) →
      (l.foldl (bestStep n) acc).isSome := by
  intro l
  induction l with
  | nil => rintro acc ⟨bm, hbm, _⟩; cases hbm
  | cons bm0 l ih =>
    rintro acc ⟨bm, hbm, hd⟩
    rw [List.foldl_cons]
    rcases List.mem_cons.mp hbm with rfl | hmem
    · refine foldl_best_some_mono l _ ?_
      rw [bestStep]
      rcases hdd : outcomesDict bm n with _ | price
      · rw [hdd] at hd; cases hd
      · rcases acc with _ | b
        · rfl
        · show (if b < price then some price else some b).isSome = true
          split_ifs <;> rfl
    · exact ih _ ⟨bm, hmem, hd⟩

lemma foldl_max_comm : ∀ (t : List ℚ) (a b : ℚ),
    t.foldl max (max a b) = max a (t.foldl max b) := by
  intro t
  induction t with
  | nil => intro a b; rfl
  | cons c t ih =>
    intro a b
    rw [List.foldl_cons, List.foldl_cons, max_assoc, ih]

lemma le_foldl_max : ∀ (t : List ℚ) (a : ℚ), a ≤ t.foldl max a := by
  intro t
  induction t with
  | nil => intro a; exact le_refl a
  | cons c t ih =>
    intro a
    rw [List.foldl_cons]
    exact le_trans (le_max_left a c) (ih (max a c))

lemma mem_le_foldl_max : ∀ (t : List ℚ) (a b : ℚ), b ∈ t → b ≤ t.foldl max a := by
  intro t
  induction t with
  | nil => intro a b hb; cases hb
  | cons c t ih =>
    intro a b hb
    rw [List.foldl_cons]
    rcases List.mem_cons.mp hb with rfl | hmem
    · exact le_trans (le_max_right a b) (le_foldl_max t (max a b))
    · exact ih (max a c) b hmem

lemma selectStep_none {names : List String} {g : Game} {n : String}
    (acc : Option (String × ℚ × ℚ)) (hbo : bestOdds names g n = none) :
    selectStep names g acc n = acc := by
  rw [selectStep, hbo]

lemma selectStep_pos {names : List String} {g : Game} {n : String} {bp : ℚ}
    (acc : Option (String × ℚ × ℚ)) (hbo : bestOdds names g n = some bp)
    (hc : accRoi acc < fairProb names g n * bp - 1) :
    selectStep names g acc n = some (n, fairProb names g n * bp - 1, bp) := by
  rw [selectStep, hbo]
  simp only []
  rw [if_pos hc]

lemma selectStep_neg {names : List String} {g : Game} {n : String} {bp : ℚ}
    (acc : Option (String × ℚ × ℚ)) (hbo : bestOdds names g n = some bp)
    (hc : ¬ accRoi acc < fairProb names g n * bp - 1) :
    selectStep names g acc n = acc := by
  rw [selectStep, hbo]
  simp only []
  rw [if_neg hc]

lemma accRoi_selectStep_some {names : List String} {g : Game} {n : String} {bp : ℚ}
    (acc : Option (String × ℚ × ℚ)) (hbo : bestOdds names g n = some bp) :
    accRoi (selectStep names g acc n) =
      max (accRoi acc) (fairProb names g n * bp - 1) := by
  by_cases hc : accRoi acc < fairProb names g n * bp - 1
  · rw [selectStep_pos acc hbo hc]
    exact (max_eq_right (le_of_lt hc)).symm
  · rw [selectStep_neg acc hbo hc]
    exact (max_eq_left (le_of_not_lt hc)).symm

lemma accRoi_foldl (names : List String) (g : Game) :
    ∀ (l : List String) (acc : Option (String × ℚ × ℚ)),
      accRoi (l.foldl (selectStep names g) acc) =
        (rois names g l).foldl max (accRoi acc) := by
  intro l
  induction l with
  | nil => intro acc; rfl
  | cons n l ih =>
    intro acc
    rw [List.foldl_cons, ih]
    simp only [rois, List.filterMap_cons]
    rcases hbo : bestOdds names g n with _ | bp
    · rw [selectStep_none acc hbo]
      simp only [Option.map_none']
    · rw [accRoi_selectStep_some acc hbo]
      simp only [Option.map_some']
      rw [List.foldl_cons]

lemma selectLoop_eq_some (names : List String) (g : Game) :
    ∀ (l : List String) (acc : Option (String × ℚ × ℚ)) (p : String) (r o : ℚ),
      l.foldl (selectStep names g) acc = some (p, r, o) →
      (acc = some (p, r, o) ∧ ∀ n ∈ l, ∀ bp, bestOdds names g n = some bp →
          fairProb names g n * bp - 1 ≤ r) ∨
      (∃ l1 l2, l = l1 ++ p :: l2 ∧ bestOdds names g p = some o ∧
          r = fairProb names g p * o - 1 ∧ accRoi acc < r ∧
          (∀ n ∈ l1, ∀ bp, bestOdds names g n = some bp →
            fairProb names g n * bp - 1 < r) ∧
          (∀ n ∈ l2, ∀ bp, bestOdds names g n = some bp →
            fairProb names g n * bp - 1 ≤ r)) := by
  intro l
  induction l with
  | nil =>
    intro acc p r o h
    exact Or.inl ⟨h, by intro n hn; cases hn⟩
  | cons n l ih =>
    intro acc p r o h
    rw [List.foldl_cons] at h
    have hacc' := ih (selectStep names g acc n) p r o h
    rcases hbo : bestOdds names g n with _ | bp
    · rw [selectStep_none acc hbo] at hacc'
      rcases hacc' with ⟨heq, hle⟩ | ⟨l1, l2, hsplit, hbp, hr, hlt, hl1, hl2⟩
      · refine Or.inl ⟨heq, ?_⟩
        intro m hm bp hbp
        rcases List.mem_cons.mp hm with rfl | hm'
        · rw [hbp] at hbo; cases hbo
        · exact hle m hm' bp hbp
      · refine Or.inr ⟨n :: l1, l2, by rw [hsplit]; rfl, hbp, hr, hlt, ?_, hl2⟩
        intro m hm bp hbp'
        rcases List.mem_cons.mp hm with rfl | hm'
        · rw [hbp'] at hbo; cases hbo
        · exact hl1 m hm' bp hbp'
    · by_cases hcond : accRoi acc < fairProb names g n * bp - 1
      · rw [selectStep_pos acc hbo hcond] at hacc'
        rcases hacc' with ⟨heq, hle⟩ | ⟨l1, l2, hsplit, hbp', hr, hlt, hl1, hl2⟩
        · obtain ⟨rfl, hr, rfl⟩ : n = p ∧ fairProb names g n * bp - 1 = r ∧ bp = o := by
            have h1 := congrArg (fun x => (x.getD ("", 0, 0)).1) heq
            have h2 := congrArg (fun x => (x.getD ("", 0, 0)).2.1) heq
            have h3 := congrArg (fun x => (x.getD ("", 0, 0)).2.2) heq
            exact ⟨h1, h2, h3⟩
          exact Or.inr ⟨[], l, rfl, hbo, hr.symm, hr ▸ hcond,
            fun m hm => absurd hm (List.not_mem_nil m), hle⟩
        · refine Or.inr ⟨n :: l1, l2, by rw [hsplit]; rfl, hbp', hr, ?_, ?_, hl2⟩
          · calc accRoi acc < fairProb names g n * bp - 1 := hcond
              _ < r := by
                have := hlt
                simp only [accRoi] at this
                exact this
          · intro m hm bp' hbp''
            rcases List.mem_cons.mp hm with rfl | hm'
            · rw [hbp''] at hbo
              have hbpeq : bp' = bp := by injection hbo
              subst hbpeq
              simp only [accRoi] at hlt
              exact hlt
            · exact hl1 m hm' bp' hbp''
      · rw [selectStep_neg acc hbo hcond] at hacc'
        rcases hacc' with ⟨heq, hle⟩ | ⟨l1, l2, hsplit, hbp', hr, hlt, hl1, hl2⟩
        · refine Or.inl ⟨heq, ?_⟩
          intro m hm bp' hbp''
          rcases List.mem_cons.mp hm with rfl | hm'
          · rw [hbp''] at hbo
            have hbpeq : bp' = bp := by injection hbo
            subst hbpeq
            have haccr : accRoi acc = r := by rw [heq]; rfl
            rw [← haccr]
            exact le_of_not_lt hcond
          · exact hle m hm' bp' hbp''
        · refine Or.inr ⟨n :: l1, l2, by rw [hsplit]; rfl, hbp', hr, hlt, ?_, hl2⟩
          intro m hm bp' hbp''
          rcases List.mem_cons.mp hm with rfl | hm'
          · rw [hbp''] at hbo
            have hbpeq : bp' = bp := by injection hbo
            subst hbpeq
            exact lt_of_le_of_lt (le_of_not_lt hcond) hlt
          · exact hl1 m hm' bp' hbp''

lemma consensusLoop_none {names : List String} {g : Game} {n : String} :
    ∀ {l : List String}, n ∈ l → consensusProb names g n = none →
      consensusLoop names g l = none := by
  intro l
  induction l with
  | nil => intro hn; cases hn
  | cons m l ih =>
    intro hn hc
    rw [consensusLoop]
    rcases List.mem_cons.mp hn with rfl | hn'
    · rw [hc]
    · rw [ih hn' hc]
      rcases consensusProb names g m with _ | c <;> rfl

lemma naiveEdge_eq_of_ok {g : Game} (h : estimationOk g) :
    naiveEdge g =
      match selectLoop (outcomeNames g) g (outcomeNames g) with
      | none => none
      | some (best_pick, best_roi, best_odds) =>
        if 5 / 100 ≤ best_roi then some (best_pick, best_odds, best_roi) else none := by
  obtain ⟨h1, h2, h3, h4, h5⟩ := h
  obtain ⟨L, hL⟩ := Option.isSome_iff_exists.mp h4
  rw [naiveEdge, if_neg h1]
  simp only []
  rw [if_neg (by omega : ¬ (outcomeNames g).length < 2), if_neg h3, hL]
  simp only []
  rw [if_neg h5]

lemma naiveEdge_none_of_pairs {g : Game}
    (h : consensusPairs (outcomeNames g) g = none) : naiveEdge g = none := by
  rw [naiveEdge]
  by_cases h1 : g.bookmakers = []
  · rw [if_pos h1]
  · rw [if_neg h1]
    simp only []
    by_cases h2 : (outcomeNames g).length < 2
    · rw [if_pos h2]
    · rw [if_neg h2]
      by_cases h3 : bookmakerData (outcomeNames g) g = []
      · rw [if_pos h3]
      · rw [if_neg h3, h]

/-! Evaluation of the concrete matches. -/

lemma gA_names : outcomeNames gA = ["A", "B"] := by rfl

lemma gA_bms : gA.bookmakers = [bmX, bmY] := by rfl

lemma dX_A : outcomesDict bmX "A" = some 2 := by rfl

lemma dX_B : outcomesDict bmX "B" = some (9 / 5) := by rfl

lemma dY_A : outcomesDict bmY "A" = some (19 / 10) := by rfl

lemma dY_B : outcomesDict bmY "B" = some 2 := by rfl

lemma totX : totalImplied ["A", "B"] bmX = 19 / 18 := by
  norm_num [totalImplied, impliedProb, dX_A, dX_B]

lemma totY : totalImplied ["A", "B"] bmY = 39 / 38 := by
  norm_num [totalImplied, impliedProb, dY_A, dY_B]

lemma gA_data : bookmakerData ["A", "B"] gA = [bmX, bmY] := by
  norm_num [bookmakerData, gA_bms, List.filter_cons, totX, totY]

lemma vX_A : vigFree ["A", "B"] bmX "A" = 9 / 19 := by
  norm_num [vigFree, impliedProb, dX_A, totX]

lemma vX_B : vigFree ["A", "B"] bmX "B" = 10 / 19 := by
  norm_num [vigFree, impliedProb, dX_B, totX]

lemma vY_A : vigFree ["A", "B"] bmY "A" = 20 / 39 := by
  norm_num [vigFree, impliedProb, dY_A, totY]

lemma vY_B : vigFree ["A", "B"] bmY "B" = 19 / 39 := by
  norm_num [vigFree, impliedProb, dY_B, totY]

lemma bO_A : bestOdds ["A", "B"] gA "A" = some 2 := by
  norm_num [bestOdds, gA_data, List.foldl, bestStep, dX_A, dY_A]

lemma bO_B : bestOdds ["A", "B"] gA "B" = some 2 := by
  norm_num [bestOdds, gA_data, List.foldl, bestStep, dX_B, dY_B]

lemma cand_A : candidateProbs ["A", "B"] gA "A" = [20 / 39] := by
  norm_num [candidateProbs, primaryCandidates, gA_data, List.filterMap_cons,
    dX_A, dY_A, bO_A, vX_A, vY_A]

lemma cand_B : candidateProbs ["A", "B"] gA "B" = [10 / 19] := by
  norm_num [candidateProbs, primaryCandidates, gA_data, List.filterMap_cons,
    dX_B, dY_B, bO_B, vX_B, vY_B]

lemma cons_A : consensusProb ["A", "B"] gA "A" = some (20 / 39) := by
  norm_num [consensusProb, cand_A, median, List.insertionSort]

lemma cons_B : consensusProb ["A", "B"] gA "B" = some (10 / 19) := by
  norm_num [consensusProb, cand_B, median, List.insertionSort]

lemma totC_gA : totalConsensus ["A", "B"] gA = 770 / 741 := by
  norm_num [totalConsensus, cons_A, cons_B]

lemma fair_A : fairProb ["A", "B"] gA "A" = 38 / 77 := by
  norm_num [fairProb, cons_A, totC_gA]

lemma fair_B : fairProb ["A", "B"] gA "B" = 39 / 77 := by
  norm_num [fairProb, cons_B, totC_gA]

lemma sel_gA : selectLoop ["A", "B"] gA ["A", "B"] = some ("B", 1 / 77, 2) := by
  norm_num [selectLoop, selectStep, accRoi, List.foldl, bO_A, bO_B, fair_A, fair_B]

lemma pairs_gA : consensusPairs ["A", "B"] gA = some [("A", 20 / 39), ("B", 10 / 19)] := by
  norm_num [consensusPairs, consensusLoop, cons_A, cons_B]

lemma edge_gA : naiveEdge gA = none := by
  rw [naiveEdge]
  norm_num [gA_bms, gA_names, gA_data, pairs_gA, totC_gA, sel_gA]

lemma ok_gA : estimationOk gA := by
  rw [estimationOk, gA_names]
  refine ⟨by rw [gA_bms]; simp, by simp, by rw [gA_data]; simp, by rw [pairs_gA]; rfl, ?_⟩
  rw [totC_gA]
  norm_num

lemma gB_names : outcomeNames gB = ["A", "B"] := by rfl

lemma gB_bms : gB.bookmakers = [bmP, bmQ] := by rfl

lemma dP_A : outcomesDict bmP "A" = some 3 := by rfl

lemma dP_B : outcomesDict bmP "B" = some (7 / 5) := by rfl

lemma dQ_A : outcomesDict bmQ "A" = some (3 / 2) := by rfl

lemma dQ_B : outcomesDict bmQ "B" = some (13 / 5) := by rfl

lemma totP : totalImplied ["A", "B"] bmP = 22 / 21 := by
  norm_num [totalImplied, impliedProb, dP_A, dP_B]

lemma totQ : totalImplied ["A", "B"] bmQ = 41 / 39 := by
  norm_num [totalImplied, impliedProb, dQ_A, dQ_B]

lemma gB_data : bookmakerData ["A", "B"] gB = [bmP, bmQ] := by
  norm_num [bookmakerData, gB_bms, List.filter_cons, totP, totQ]

lemma vP_A : vigFree ["A", "B"] bmP "A" = 7 / 22 := by
  norm_num [vigFree, impliedProb, dP_A, totP]

lemma vP_B : vigFree ["A", "B"] bmP "B" = 15 / 22 := by
  norm_num [vigFree, impliedProb, dP_B, totP]

lemma vQ_A : vigFree ["A", "B"] bmQ "A" = 26 / 41 := by
  norm_num [vigFree, impliedProb, dQ_A, totQ]

lemma vQ_B : vigFree ["A", "B"] bmQ "B" = 15 / 41 := by
  norm_num [vigFree, impliedProb, dQ_B, totQ]

lemma bOB_A : bestOdds ["A", "B"] gB "A" = some 3 := by
  norm_num [bestOdds, gB_data, List.foldl, bestStep, dP_A, dQ_A]

lemma bOB_B : bestOdds ["A", "B"] gB "B" = some (13 / 5) := by
  norm_num [bestOdds, gB_data, List.foldl, bestStep, dP_B, dQ_B]

lemma candB_A : candidateProbs ["A", "B"] gB "A" = [26 / 41] := by
  norm_num [candidateProbs, primaryCandidates, gB_data, List.filterMap_cons,
    dP_A, dQ_A, bOB_A, vP_A, vQ_A]

lemma candB_B : candidateProbs ["A", "B"] gB "B" = [15 / 22] := by
  norm_num [candidateProbs, primaryCandidates, gB_data, List.filterMap_cons,
    dP_B, dQ_B, bOB_B, vP_B, vQ_B]

lemma consB_A : consensusProb ["A", "B"] gB "A" = some (26 / 41) := by
  norm_num [consensusProb, candB_A, median, List.insertionSort]

lemma consB_B : consensusProb ["A", "B"] gB "B" = some (15 / 22) := by
  norm_num [consensusProb, candB_B, median, List.insertionSort]

lemma totC_gB : totalConsensus ["A", "B"] gB = 1187 / 902 := by
  norm_num [totalConsensus, consB_A, consB_B]

lemma fairB_A : fairProb ["A", "B"] gB "A" = 572 / 1187 := by
  norm_num [fairProb, consB_A, totC_gB]

lemma fairB_B : fairProb ["A", "B"] gB "B" = 615 / 1187 := by
  norm_num [fairProb, consB_B, totC_gB]

lemma sel_gB : selectLoop ["A", "B"] gB ["A", "B"] = some ("A", 529 / 1187, 3) := by
  norm_num [selectLoop, selectStep, accRoi, List.foldl, bOB_A, bOB_B, fairB_A, fairB_B]

lemma pairs_gB : consensusPairs ["A", "B"] gB = some [("A", 26 / 41), ("B", 15 / 22)] := by
  norm_num [consensusPairs, consensusLoop, consB_A, consB_B]

lemma edge_gB : naiveEdge gB = some ("A", 3, 529 / 1187) := by
  rw [naiveEdge]
  norm_num [gB_bms, gB_names, gB_data, pairs_gB, totC_gB, sel_gB]
  exact ⟨by simp, fun h => by simp at h⟩

lemma ok_gB : estimationOk gB := by
  rw [estimationOk, gB_names]
  refine ⟨by rw [gB_bms]; simp, by simp, by rw [gB_data]; simp, by rw [pairs_gB]; rfl, ?_⟩
  rw [totC_gB]
  norm_num

lemma pos_gB : pricesPos gB := by
  rw [pricesPos, gB_bms]
  intro bm hbm q hq
  rcases List.mem_cons.mp hbm with rfl | hbm'
  · rcases hq with _ | ⟨_, hq2⟩
    · norm_num
    · rcases hq2 with _ | ⟨_, hq3⟩
      · norm_num
      · cases hq3
  · rcases List.mem_cons.mp hbm' with rfl | hbm''
    · rcases hq with _ | ⟨_, hq2⟩
      · norm_num
      · rcases hq2 with _ | ⟨_, hq3⟩
        · norm_num
        · cases hq3
    · cases hbm''

lemma pos_gA : pricesPos gA := by
  rw [pricesPos, gA_bms]
  intro bm hbm q hq
  rcases List.mem_cons.mp hbm with rfl | hbm'
  · rcases hq with _ | ⟨_, hq2⟩
    · norm_num
    · rcases hq2 with _ | ⟨_, hq3⟩
      · norm_num
      · cases hq3
  · rcases List.mem_cons.mp hbm' with rfl | hbm''
    · rcases hq with _ | ⟨_, hq2⟩
      · norm_num
      · rcases hq2 with _ | ⟨_, hq3⟩
        · norm_num
        · cases hq3
    · cases hbm''

lemma gC1_names : outcomeNames gC1 = ["B", "A"] := by rfl

lemma dC11_B : outcomesDict ⟨[⟨"A", 2⟩, ⟨"B", 2⟩]⟩ "B" = some 2 := by rfl

lemma dC12_B : outcomesDict ⟨[⟨"A", 2⟩]⟩ "B" = none := by rfl

lemma dC11_A : outcomesDict ⟨[⟨"A", 2⟩, ⟨"B", 2⟩]⟩ "A" = some 2 := by rfl

lemma dC12_A : outcomesDict ⟨[⟨"A", 2⟩]⟩ "A" = some 2 := by rfl

lemma totC11 : totalImplied ["B", "A"] ⟨[⟨"A", 2⟩, ⟨"B", 2⟩]⟩ = 1 := by
  norm_num [totalImplied, impliedProb, dC11_A, dC11_B]

lemma totC12 : totalImplied ["B", "A"] ⟨[⟨"A", 2⟩]⟩ = 1 / 2 := by
  norm_num [totalImplied, impliedProb, dC12_A, dC12_B]

lemma gC1_data : bookmakerData ["B", "A"] gC1 = [⟨[⟨"A", 2⟩, ⟨"B", 2⟩]⟩, ⟨[⟨"A", 2⟩]⟩] := by
  norm_num [bookmakerData, gC1, List.filter_cons, totC11, totC12]

lemma vC11_B : vigFree ["B", "A"] ⟨[⟨"A", 2⟩, ⟨"B", 2⟩]⟩ "B" = 1 / 2 := by
  norm_num [vigFree, impliedProb, dC11_B, totC11]

lemma vC12_B : vigFree ["B", "A"] ⟨[⟨"A", 2⟩]⟩ "B" = 0 := by
  norm_num [vigFree, impliedProb, dC12_B, totC12]

lemma bOC1_B : bestOdds ["B", "A"] gC1 "B" = some 2 := by
  norm_num [bestOdds, gC1_data, List.foldl, bestStep, dC11_B, dC12_B]

lemma candC1_B : candidateProbs ["B", "A"] gC1 "B" = [1 / 2] := by
  norm_num [candidateProbs, primaryCandidates, fallbackCandidates, gC1_data,
    List.filterMap_cons, dC11_B, dC12_B, bOC1_B, vC11_B, vC12_B]

lemma candClaimedC1_B : candidateProbsClaimed ["B", "A"] gC1 "B" = [0] := by
  norm_num [candidateProbsClaimed, primaryCandidatesClaimed, gC1_data,
    List.filterMap_cons, dC11_B, dC12_B, bOC1_B, vC11_B, vC12_B]

lemma gC1w_names : outcomeNames gC1w = ["B", "A"] := by rfl

lemma dW1_B : outcomesDict ⟨[⟨"A", 1 / 4⟩, ⟨"B", -2⟩]⟩ "B" = some (-2) := by rfl

lemma dW1_A : outcomesDict ⟨[⟨"A", 1 / 4⟩, ⟨"B", -2⟩]⟩ "A" = some (1 / 4) := by rfl

lemma totW1 : totalImplied ["B", "A"] ⟨[⟨"A", 1 / 4⟩, ⟨"B", -2⟩]⟩ = 7 / 2 := by
  norm_num [totalImplied, impliedProb, dW1_A, dW1_B]

lemma gC1w_data : bookmakerData ["B", "A"] gC1w = [⟨[⟨"A", 1 / 4⟩, ⟨"B", -2⟩]⟩, ⟨[⟨"A", 2⟩]⟩] := by
  norm_num [bookmakerData, gC1w, List.filter_cons, totW1, totC12]

lemma vW1_B : vigFree ["B", "A"] ⟨[⟨"A", 1 / 4⟩, ⟨"B", -2⟩]⟩ "B" = -(1 / 7) := by
  norm_num [vigFree, impliedProb, dW1_B, totW1]

lemma bOW_B : bestOdds ["B", "A"] gC1w "B" = some (-2) := by
  norm_num [bestOdds, gC1w_data, List.foldl, bestStep, dW1_B, dC12_B]

lemma candW_B : candidateProbs ["B", "A"] gC1w "B" = [] := by
  norm_num [candidateProbs, primaryCandidates, fallbackCandidates, gC1w_data,
    List.filterMap_cons, dW1_B, dC12_B, bOW_B, vW1_B, vC12_B]

lemma gDeg_names : outcomeNames gDeg = ["A"] := by rfl

lemma primaryCandidates_eq_amended (names : List String) (g : Game) (n : String) :
    primaryCandidates names g n = primaryCandidatesAmended names g n := by
  rw [primaryCandidates, primaryCandidatesAmended]
  refine List.filterMap_congr ?_
  intro bm _
  rcases hd : outcomesDict bm n with _ | price
  · simp only []
    have hqb : ¬ quotesBest names g bm n := by
      rw [quotesBest, hd]
      intro hcontra
      exact hcontra.1 rfl
    by_cases hv : 0 < vigFree names bm n
    · rw [if_pos hv, if_pos ⟨hv, hqb⟩]
    · rw [if_neg hv, if_neg (fun hcontra => hv hcontra.1)]
  · simp only []
    by_cases hb : bestOdds names g n = some price
    · have hqb : quotesBest names g bm n := by
        rw [quotesBest, hd, hb]
        exact ⟨by simp, rfl⟩
      rw [if_pos hb, if_neg (fun hcontra => hcontra.2 hqb)]
    · have hqb : ¬ quotesBest names g bm n := by
        rw [quotesBest, hd]
        intro hcontra
        exact hb hcontra.2.symm
      rw [if_neg hb]
      by_cases hv : 0 < vigFree names bm n
      · rw [if_pos hv, if_pos ⟨hv, hqb⟩]
      · rw [if_neg hv, if_neg (fun hcontra => hv hcontra.1)]

/-! The claims. -/

/-- C1 (amended): for every match and outcome, the consensus candidate list the
code uses equals the primary list of the amended description (de-vigged
probabilities of usable bookmakers with strictly positive de-vigged probability
for the outcome, excluding bookmakers quoting the outcome at its best price)
with the all-positive-quotes fallback when the primary list is empty; and
whenever even the fallback is empty for a universe outcome, estimation fails for
the match (`naive_edge` returns the no-pick result). -/
theorem claim_C1 (g : Game) (n : String) :
    candidateProbs (outcomeNames g) g n =
      (if primaryCandidatesAmended (outcomeNames g) g n = []
       then fallbackCandidates (outcomeNames g) g n
       else primaryCandidatesAmended (outcomeNames g) g n) ∧
    (n ∈ outcomeNames g → candidateProbs (outcomeNames g) g n = [] →
      naiveEdge g = none) := by
  constructor
  · rw [candidateProbs, primaryCandidates_eq_amended]
  · intro hn hemp
    have hc : consensusProb (outcomeNames g) g n = none := by
      rw [consensusProb, if_pos hemp]
    refine naiveEdge_none_of_pairs ?_
    rw [consensusPairs]
    exact consensusLoop_none hn hc

/-- C1 counterexample: in the match `gC1`, outcome B is quoted only by the first
bookmaker and at the best price; the claimed candidate list (no positivity
filter) is the nonzero-length list `[0]` built from the second bookmaker's zero
de-vigged probability, while the code's candidate list is the fallback `[1/2]`. -/
theorem claim_C1_counterexample :
    "B" ∈ outcomeNames gC1 ∧
    candidateProbs (outcomeNames gC1) gC1 "B" = [1 / 2] ∧
    candidateProbsClaimed (outcomeNames gC1) gC1 "B" = [0] ∧
    candidateProbs (outcomeNames gC1) gC1 "B" ≠
      candidateProbsClaimed (outcomeNames gC1) gC1 "B" := by
  rw [gC1_names]
  refine ⟨by simp, candC1_B, candClaimedC1_B, ?_⟩
  rw [candC1_B, candClaimedC1_B]
  norm_num

/-- C1 witness: the match `gC1w` has an outcome (B) whose primary and fallback
candidate lists are both empty, and `naive_edge` indeed fails on it. -/
theorem claim_C1_witness : naiveEdge gC1w = none := by
  have h := (claim_C1 gC1w "B").2
  rw [gC1w_names] at h
  exact h (by simp) candW_B

/-- C2: on Scenario A (bookmaker X: A=2.00, B=1.80; bookmaker Y: A=1.90, B=2.00)
the estimator computes best prices A=2.00 and B=2.00, fair probabilities
38/77 ≈ 0.4935 and 39/77 ≈ 0.5065, expected ROIs -1/77 ≈ -0.013 and
1/77 ≈ 0.013, both below the 0.05 threshold, and returns the no-pick result. -/
theorem claim_C2 :
    bestOdds (outcomeNames gA) gA "A" = some 2 ∧
    bestOdds (outcomeNames gA) gA "B" = some 2 ∧
    fairProb (outcomeNames gA) gA "A" = 38 / 77 ∧
    fairProb (outcomeNames gA) gA "B" = 39 / 77 ∧
    493 / 1000 < fairProb (outcomeNames gA) gA "A" ∧
    fairProb (outcomeNames gA) gA "A" < 494 / 1000 ∧
    506 / 1000 < fairProb (outcomeNames gA) gA "B" ∧
    fairProb (outcomeNames gA) gA "B" < 507 / 1000 ∧
    fairProb (outcomeNames gA) gA "A" * 2 - 1 = -(1 / 77) ∧
    fairProb (outcomeNames gA) gA "B" * 2 - 1 = 1 / 77 ∧
    (-(14 / 1000) : ℚ) < -(1 / 77) ∧ (-(1 / 77) : ℚ) < -(12 / 1000) ∧
    (12 / 1000 : ℚ) < 1 / 77 ∧ (1 / 77 : ℚ) < 14 / 1000 ∧
    fairProb (outcomeNames gA) gA "A" * 2 - 1 < 5 / 100 ∧
    fairProb (outcomeNames gA) gA "B" * 2 - 1 < 5 / 100 ∧
    naiveEdge gA = none := by
  rw [gA_names]
  rw [fair_A, fair_B]
  refine ⟨bO_A, bO_B, rfl, rfl, by norm_num, by norm_num, by norm_num, by norm_num,
    by norm_num, by norm_num, by norm_num, by norm_num, by norm_num, by norm_num,
    by norm_num, by norm_num, edge_gA⟩

/-- C7: a match with no bookmaker quote sets, or with fewer than two distinct
outcome names across all its quote sets, is rejected by `naive_edge` with the
no-pick result (the `InsufficientOutcomes` failures). -/
theorem claim_C7 (g : Game)
    (h : g.bookmakers = [] ∨ (outcomeNames g).length < 2) : naiveEdge g = none := by
  rw [naiveEdge]
  rcases h with h | h
  · rw [if_pos h]
  · by_cases h1 : g.bookmakers = []
    · rw [if_pos h1]
    · rw [if_neg h1]
      simp only []
      rw [if_pos h]

/-- C7 witness: the degenerate single-bookmaker single-outcome match has a
one-element outcome universe and is rejected. -/
theorem claim_C7_witness :
    (outcomeNames gDeg).length < 2 ∧ naiveEdge gDeg = none :=
  ⟨by rw [gDeg_names]; decide,
   claim_C7 gDeg (Or.inr (by rw [gDeg_names]; decide))⟩

/-- C8: any bookmaker quote set whose implied-probability vector over the
outcome universe has a nonzero sum yields a de-vigged vector summing exactly
to 1. -/
theorem claim_C8 (names : List String) (bm : Bookmaker)
    (h : totalImplied names bm ≠ 0) :
    (names.map (fun n => vigFree names bm n)).sum = 1 := by
  have hfun : (fun n => vigFree names bm n) =
      fun n => impliedProb bm n / totalImplied names bm := rfl
  rw [hfun, sum_map_div]
  exact div_self h

/-- C8 witness: bookmaker X of Scenario A has implied sum 19/18 ≠ 0 and its
de-vigged vector over the universe sums to 1. -/
theorem claim_C8_witness :
    totalImplied ["A", "B"] bmX ≠ 0 ∧
    ((["A", "B"]).map (fun n => vigFree ["A", "B"] bmX n)).sum = 1 :=
  ⟨by rw [totX]; norm_num, claim_C8 ["A", "B"] bmX (by rw [totX]; norm_num)⟩

/-- C4: when estimation succeeds, the fair-probability map has an entry for
every name of the outcome universe and its entries sum exactly to 1. -/
theorem claim_C4 (g : Game) (h : estimationOk g) :
    (∀ n ∈ outcomeNames g,
      (n, fairProb (outcomeNames g) g n) ∈ fairProbs (outcomeNames g) g) ∧
    ((fairProbs (outcomeNames g) g).map Prod.snd).sum = 1 := by
  obtain ⟨-, -, -, -, h5⟩ := h
  constructor
  · intro n hn
    rw [fairProbs]
    exact List.mem_map.mpr ⟨n, hn, rfl⟩
  · rw [fairProbs, List.map_map]
    have hfun : (Prod.snd ∘ fun n => (n, fairProb (outcomeNames g) g n)) =
        fun n => (consensusProb (outcomeNames g) g n).getD 0 /
          totalConsensus (outcomeNames g) g := rfl
    rw [hfun, sum_map_div]
    exact div_self h5

/-- C4 witness: on Scenario A estimation succeeds and the fair probabilities
sum to 1. -/
theorem claim_C4_witness : ((fairProbs (outcomeNames gA) gA).map Prod.snd).sum = 1 :=
  (claim_C4 gA ok_gA).2

/-- C9: with strictly positive quoted prices, whenever the consensus collection
completes for every outcome of a universe of size at least 2, every consensus
probability is strictly positive and the total consensus mass is strictly
positive, so the `ZeroConsensus` branch (`total_consensus == 0`) cannot fire. -/
theorem claim_C9 (g : Game) (hp : pricesPos g) (hlen : 2 ≤ (outcomeNames g).length)
    (hcons : (consensusPairs (outcomeNames g) g).isSome) :
    (∀ n ∈ outcomeNames g, 0 < (consensusProb (outcomeNames g) g n).getD 0) ∧
    0 < totalConsensus (outcomeNames g) g ∧
    totalConsensus (outcomeNames g) g ≠ 0 := by
  obtain ⟨L, hL⟩ := Option.isSome_iff_exists.mp hcons
  rw [consensusPairs] at hL
  have hpos : ∀ n ∈ outcomeNames g, 0 < (consensusProb (outcomeNames g) g n).getD 0 := by
    intro n hn
    have hs := consensusLoop_isSome hL n hn
    obtain ⟨c, hc⟩ := Option.isSome_iff_exists.mp hs
    rw [hc]
    exact consensusProb_pos hc
  have htot : 0 < totalConsensus (outcomeNames g) g := by
    rw [totalConsensus]
    refine List.sum_pos _ ?_ ?_
    · intro x hx
      obtain ⟨n, hn, rfl⟩ := List.mem_map.mp hx
      exact hpos n hn
    · intro hemp
      rw [List.map_eq_nil_iff] at hemp
      rw [hemp] at hlen
      exact absurd hlen (by simp)
  exact ⟨hpos, htot, ne_of_gt htot⟩

/-- C9 witness: Scenario A has positive prices, a two-outcome universe and a
complete consensus collection, and its total consensus mass is positive. -/
theorem claim_C9_witness : 0 < totalConsensus (outcomeNames gA) gA := by
  have h := claim_C9 gA pos_gA (by rw [gA_names]; decide)
    (by rw [gA_names, pairs_gA]; rfl)
  exact h.2.1

/-- C10: with strictly positive quoted prices, every name of the outcome
universe receives a best-price entry (its quoting bookmaker necessarily has a
nonzero implied sum, so it is usable and its price is recorded); hence the
selection loop's skip of outcomes without a best price never fires. -/
theorem claim_C10 (g : Game) (hp : pricesPos g) :
    ∀ n ∈ outcomeNames g, (bestOdds (outcomeNames g) g n).isSome := by
  intro n hn
  obtain ⟨bm, hbm, q, hq, hqn⟩ := mem_outcomeNames.mp hn
  have hbmpos : ∀ q' ∈ bm.outcomes, 0 < q'.price := hp bm hbm
  have hds : (outcomesDict bm n).isSome := outcomesDict_isSome ⟨q, hq, hqn⟩
  have htot : 0 < totalImplied (outcomeNames g) bm := totalImplied_pos hn hbmpos hds
  have hmem : bm ∈ bookmakerData (outcomeNames g) g := by
    rw [bookmakerData]
    exact List.mem_filter.mpr ⟨hbm, by simpa using ne_of_gt htot⟩
  rw [bestOdds]
  exact foldl_best_isSome _ none ⟨bm, hmem, hds⟩

/-- C10 witness: on Scenario A (positive prices) outcome A has a best price. -/
theorem claim_C10_witness : (bestOdds (outcomeNames gA) gA "A").isSome :=
  claim_C10 gA pos_gA "A" (by rw [gA_names]; simp)

/-- C3: when estimation succeeds, `naive_edge` emits a pick if and only if some
computed expected ROI reaches the 0.05 threshold; an emitted pick carries the
maximum computed expected ROI, which is at least 0.05. -/
theorem claim_C3 (g : Game) (h : estimationOk g) :
    ((naiveEdge g).isSome ↔
      ∃ r ∈ rois (outcomeNames g) g (outcomeNames g), 5 / 100 ≤ r) ∧
    (∀ p o e, naiveEdge g = some (p, o, e) →
      5 / 100 ≤ e ∧ e ∈ rois (outcomeNames g) g (outcomeNames g) ∧
      ∀ r ∈ rois (outcomeNames g) g (outcomeNames g), r ≤ e) := by
  have hedge := naiveEdge_eq_of_ok h
  have haccr : accRoi (selectLoop (outcomeNames g) g (outcomeNames g)) =
      (rois (outcomeNames g) g (outcomeNames g)).foldl max (-1) :=
    accRoi_foldl (outcomeNames g) g (outcomeNames g) none
  rcases hsel : selectLoop (outcomeNames g) g (outcomeNames g) with _ | ⟨p, r, o⟩
  · rw [hsel] at hedge haccr
    constructor
    · rw [hedge]
      simp only [Option.isSome_none, Bool.false_eq_true, false_iff]
      rintro ⟨x, hx, hxge⟩
      have hxle : x ≤ (rois (outcomeNames g) g (outcomeNames g)).foldl max (-1) :=
        mem_le_foldl_max _ (-1) x hx
      rw [← haccr] at hxle
      simp only [accRoi] at hxle
      linarith
    · intro p o e hsome
      rw [hedge] at hsome
      cases hsome
  · rw [hsel] at hedge haccr
    simp only [] at hedge
    rw [selectLoop] at hsel
    rcases selectLoop_eq_some (outcomeNames g) g (outcomeNames g) none p r o hsel with
      ⟨heq, -⟩ | ⟨l1, l2, hsplit, hbp, hr, -, hl1, hl2⟩
    · cases heq
    · have hpmem : p ∈ outcomeNames g := by
        rw [hsplit]
        exact List.mem_append.mpr (Or.inr (List.mem_cons_self p l2))
      have hmem : r ∈ rois (outcomeNames g) g (outcomeNames g) := by
        rw [rois]
        refine List.mem_filterMap.mpr ⟨p, hpmem, ?_⟩
        rw [hbp, Option.map_some']
        rw [hr]
      have hmax : ∀ x ∈ rois (outcomeNames g) g (outcomeNames g), x ≤ r := by
        intro x hx
        have hxle := mem_le_foldl_max _ (-1) x hx
        rw [← haccr] at hxle
        simpa [accRoi] using hxle
      constructor
      · constructor
        · intro hsome
          by_cases hth : 5 / 100 ≤ r
          · exact ⟨r, hmem, hth⟩
          · rw [hedge, if_neg hth] at hsome
            cases hsome
        · rintro ⟨x, hx, hxge⟩
          have hth : 5 / 100 ≤ r := le_trans hxge (hmax x hx)
          rw [hedge, if_pos hth]
          rfl
      · intro p' o' e hsome
        rw [hedge] at hsome
        split_ifs at hsome with hth
        simp only [Option.some.injEq, Prod.mk.injEq] at hsome
        obtain ⟨rfl, rfl, rfl⟩ := hsome
        exact ⟨hth, hmem, hmax⟩

lemma rois_gB : rois ["A", "B"] gB ["A", "B"] = [529 / 1187, 412 / 1187] := by
  norm_num [rois, List.filterMap_cons, bOB_A, bOB_B, fairB_A, fairB_B]

/-- C3 witness: on Scenario B an outcome ROI (529/1187 ≈ 0.4457) reaches the
threshold and a pick is emitted. -/
theorem claim_C3_witness : (naiveEdge gB).isSome := by
  refine ((claim_C3 gB ok_gB).1).mpr ⟨529 / 1187, ?_, by norm_num⟩
  rw [gB_names, rois_gB]
  simp

/-- C6: when estimation succeeds and a pick is emitted, the pick's expected ROI
is `fair_probability * best_price - 1` for its outcome, the quoted odds are that
outcome's best price, and the outcome is the first (in outcome-universe
iteration order) whose expected ROI attains the maximum: every earlier priced
outcome has strictly smaller ROI, every later one has ROI at most the pick's. -/
theorem claim_C6 (g : Game) (h : estimationOk g) (p : String) (o e : ℚ)
    (hsome : naiveEdge g = some (p, o, e)) :
    ∃ l1 l2, outcomeNames g = l1 ++ p :: l2 ∧
      bestOdds (outcomeNames g) g p = some o ∧
      e = fairProb (outcomeNames g) g p * o - 1 ∧
      (∀ n ∈ l1, ∀ bp, bestOdds (outcomeNames g) g n = some bp →
        fairProb (outcomeNames g) g n * bp - 1 < e) ∧
      (∀ n ∈ l2, ∀ bp, bestOdds (outcomeNames g) g n = some bp →
        fairProb (outcomeNames g) g n * bp - 1 ≤ e) := by
  have hedge := naiveEdge_eq_of_ok h
  rcases hsel : selectLoop (outcomeNames g) g (outcomeNames g) with _ | ⟨p', r', o'⟩
  · rw [hsel] at hedge
    rw [hedge] at hsome
    cases hsome
  · rw [hsel] at hedge
    simp only [] at hedge
    rw [hedge] at hsome
    split_ifs at hsome with hth
    simp only [Option.some.injEq, Prod.mk.injEq] at hsome
    obtain ⟨rfl, rfl, rfl⟩ := hsome
    rw [selectLoop] at hsel
    rcases selectLoop_eq_some (outcomeNames g) g (outcomeNames g) none p' r' o' hsel with
      ⟨heq, -⟩ | ⟨l1, l2, hsplit, hbp, hr, -, hl1, hl2⟩
    · cases heq
    · exact ⟨l1, l2, hsplit, hbp, hr, hl1, hl2⟩

/-- C6 witness: on Scenario B the emitted pick (outcome A at odds 3) satisfies
the ROI formula at the best price. -/
theorem claim_C6_witness :
    bestOdds (outcomeNames gB) gB "A" = some 3 ∧
    (529 / 1187 : ℚ) = fairProb (outcomeNames gB) gB "A" * 3 - 1 := by
  obtain ⟨l1, l2, hsplit, hbp, hr, hl1, hl2⟩ :=
    claim_C6 gB ok_gB "A" 3 (529 / 1187) edge_gB
  exact ⟨hbp, hr⟩

/-- C5: the per-sport ranking is non-increasing in expected ROI, has at most
`MAX_PICKS_PER_SPORT = 5` entries, and every entry comes from a listed match on
which `naive_edge` emitted exactly that pick (so no match that failed estimation
or selection contributes). -/
theorem claim_C5 (games : List Game) :
    (topPicks games).Pairwise (fun a b => b.1 ≤ a.1) ∧
    (topPicks games).length ≤ MAX_PICKS_PER_SPORT ∧
    ∀ t ∈ topPicks games, t.2.1 ∈ games ∧
      naiveEdge t.2.1 = some (t.2.2.1, t.2.2.2, t.1) := by
  refine ⟨?_, ?_, ?_⟩
  · have hsorted : List.Sorted pickGE ((valuePicks games).insertionSort pickGE) :=
      List.sorted_insertionSort pickGE (valuePicks games)
    exact List.Pairwise.sublist (List.take_sublist MAX_PICKS_PER_SPORT _) hsorted
  · exact List.length_take_le _ _
  · intro t ht
    have ht1 : t ∈ (valuePicks games).insertionSort pickGE :=
      List.take_subset _ _ ht
    have ht2 : t ∈ valuePicks games :=
      (List.perm_insertionSort pickGE _).mem_iff.mp ht1
    obtain ⟨game, hgame, hmap⟩ := List.mem_filterMap.mp ht2
    rcases hne : naiveEdge game with _ | r
    · rw [hne] at hmap
      cases hmap
    · rw [hne, Option.map_some'] at hmap
      have ht3 : t = (r.2.2, game, r.1, r.2.1) := by injection hmap.symm
      subst ht3
      exact ⟨hgame, hne⟩

lemma top_gB : topPicks [gB] = [(529 / 1187, gB, "A", 3)] := by
  rw [topPicks, valuePicks]
  simp only [List.filterMap_cons, List.filterMap_nil, edge_gB, Option.map_some']
  rfl

/-- C5 witness: for the one-match list `[gB]` the ranked output is the single
qualifying pick, and it comes from `gB` with its emitted pick. -/
theorem claim_C5_witness : gB ∈ [gB] ∧ naiveEdge gB = some ("A", 3, 529 / 1187) :=
  (claim_C5 [gB]).2.2 ((529 : ℚ) / 1187, gB, "A", (3 : ℚ)) (by rw [top_gB]; simp)

end ValueOdds
